import Mathlib

/-!
Shallow embedding of the VidKeep ingestion/delivery pipeline core, translated
from the backend source shown in the repository tickets:

* `ingest_video`              — src/tickets/T011-videos-crud-api.md (POST /ingest)
* `cancel_download`           — src/docs/tickets/T023-cancel-download.md (cancel endpoint)
* `cleanup_partial_download`  — src/docs/tickets/T023-cancel-download.md (cleanup task)
* `download_video`            — src/docs/tickets/T023-cancel-download.md together with
                                the error handler of src/unnamed/part_015 (T008 task)
* `progress_hook`             — src/unnamed/part_015 (yt-dlp progress callback)
* `parse_range_header`, `stream_file`, `stream_video`
                              — src/tickets/T009-video-streaming.md

Python integers are modelled as `Int`/`Nat`; byte payloads as `List Nat`;
fallible endpoints return `Except`.
-/

namespace VidKeep

/-- Video status values used by the backend: "pending", "downloading",
"complete", "failed", "cancelled" (models/video.py, T023). -/
inductive VideoStatus where
  | pending
  | downloading
  | complete
  | failed
  | cancelled
deriving DecidableEq, Repr

/-- The string stored in the database for each status value. -/
def statusStr : VideoStatus → String
  | .pending => "pending"
  | .downloading => "downloading"
  | .complete => "complete"
  | .failed => "failed"
  | .cancelled => "cancelled"

/-- The columns of the `Video` record that the core pipeline reads or writes
(status, error_message, file_size_bytes); business metadata is out of scope. -/
structure VideoRec where
  status : VideoStatus
  error_message : Option String
  file_size_bytes : Option Nat
deriving DecidableEq, Repr

/-- The video table: association list from video_id to record
(`db.get(Video, video_id)` is a keyed lookup). -/
abbrev DB := List (String × VideoRec)

/-- `db.get(Video, video_id)`. -/
def dbLookup (db : DB) (vid : String) : Option VideoRec :=
  (db.find? (fun p => p.1 = vid)).map (fun p => p.2)

/-- Mutating the record held for `vid` and committing. -/
def dbUpdate (db : DB) (vid : String) (v : VideoRec) : DB :=
  db.map (fun p => if p.1 = vid then (p.1, v) else p)

/-! ## Ingestion endpoint (T011 `ingest_video`) -/

/-- The typed HTTP errors `ingest_video` raises: 400 invalid URL,
409 conflict, 422 metadata fetch failure. -/
inductive IngestError where
  | badRequest (detail : String)
  | conflict (detail : String)
  | unprocessable (detail : String)
deriving DecidableEq, Repr

/-- The 202 response body of `ingest_video`. -/
structure IngestOk where
  video_id : String
  message : String
deriving DecidableEq, Repr

/-- Result of one `POST /api/videos/ingest` call: HTTP outcome, the video
table afterwards, and the download jobs enqueued by the call. -/
structure IngestRun where
  result : Except IngestError IngestOk
  db : DB
  enqueued : List String
deriving Repr

/-- T011 `ingest_video`: validate the URL, check for an existing record
(409 for complete and for pending/downloading, retry path for any other
status), otherwise fetch metadata (422 on failure) and create a pending
record, enqueueing the download. `urlOk`/`vid` model
`validate_youtube_url(request.url)`, `fetchOk` models whether
`ytdlp.extract_info` succeeds. -/
def ingest_video (db : DB) (urlOk : Bool) (vid : String) (fetchOk : Bool) : IngestRun :=
  if ¬urlOk then
    ⟨.error (.badRequest "Invalid URL"), db, []⟩
  else
    match dbLookup db vid with
    | some existing =>
      if existing.status = .complete then
        ⟨.error (.conflict ("Video " ++ vid ++ " already exists")), db, []⟩
      else if existing.status = .pending ∨ existing.status = .downloading then
        ⟨.error (.conflict ("Video " ++ vid ++ " is already being processed")), db, []⟩
      else
        -- failed (or cancelled) - allow retry
        ⟨.ok ⟨vid, "Retry queued for previously failed download"⟩,
          dbUpdate db vid { existing with status := .pending, error_message := none },
          [vid]⟩
    | none =>
      if ¬fetchOk then
        ⟨.error (.unprocessable "Failed to fetch video info"), db, []⟩
      else
        ⟨.ok ⟨vid, "Download queued"⟩,
          db ++ [(vid, ⟨.pending, none, none⟩)],
          [vid]⟩

/-! ## Cancel endpoint (T023 `cancel_download`) -/

/-- Typed HTTP error: status code and detail string. -/
structure HTTPError where
  code : Nat
  detail : String
deriving DecidableEq, Repr

/-- The 200 response body of the cancel endpoint. -/
structure CancelOk where
  status : String
  video_id : String
deriving DecidableEq, Repr

/-- Result of one `POST /api/videos/{video_id}/cancel` call: HTTP outcome,
the video table afterwards, the set of Redis `cancel:{id}` flags, and the
queue of enqueued cleanup tasks. -/
structure CancelRun where
  result : Except HTTPError CancelOk
  db : DB
  flags : List String
  cleanupQueue : List String
deriving Repr

/-- T023 `cancel_download`: 404 when the record is missing, 400 when the
status is not pending/downloading, otherwise set the Redis cancel flag,
mark the record cancelled, and enqueue `cleanup_partial_download`. -/
def cancel_download (db : DB) (flags : List String) (queue : List String)
    (vid : String) : CancelRun :=
  match dbLookup db vid with
  | none => ⟨.error ⟨404, "Video not found"⟩, db, flags, queue⟩
  | some v =>
    if v.status = .pending ∨ v.status = .downloading then
      ⟨.ok ⟨"cancelled", vid⟩,
        dbUpdate db vid
          { v with status := .cancelled,
                   error_message := some "Download cancelled by user" },
        vid :: flags,
        queue ++ [vid]⟩
    else
      ⟨.error ⟨400, "Cannot cancel video with status " ++ statusStr v.status⟩,
        db, flags, queue⟩

/-! ## Asset store and cleanup task (T023 `cleanup_partial_download`) -/

/-- One file in the media directory of a job: owning job id, file name,
extension, and size in bytes. -/
structure FileEntry where
  job : String
  name : String
  ext : String
  size : Nat
deriving DecidableEq, Repr

/-- The Asset Store: the files on disk under the media directory. -/
abbrev Store := List FileEntry

/-- The glob patterns removed by cleanup:
`['*.part', '*.ytdl', '*.temp', '*.mp4', '*.webm', '*.mkv', '*.m4a', '*.mp3']`. -/
def patterns : List String :=
  ["part", "ytdl", "temp", "mp4", "webm", "mkv", "m4a", "mp3"]

/-- Whether a file matches one of the cleanup glob patterns for job `vid`. -/
def matchesCleanup (vid : String) (f : FileEntry) : Bool :=
  f.job = vid && patterns.contains f.ext

/-- Result of one `cleanup_partial_download` invocation. -/
structure CleanupRun where
  status : String
  store : Store
  files_removed : List String
deriving DecidableEq, Repr

/-- T023 `cleanup_partial_download`: if the video record is missing return
an error result (touching nothing); otherwise unlink every file of the
job's media directory that matches the patterns. Unlink errors are logged
and swallowed, and a missing directory is skipped, so the task never
raises. -/
def cleanup_partial_download (db : DB) (store : Store) (vid : String) : CleanupRun :=
  match dbLookup db vid with
  | none => ⟨"error", store, []⟩
  | some _ =>
    ⟨"cleaned",
      store.filter (fun f => ¬ matchesCleanup vid f),
      (store.filter (fun f => matchesCleanup vid f)).map (fun f => f.name)⟩

/-- Total bytes held in the store for a job identifier. -/
def bytesFor (store : Store) (vid : String) : Nat :=
  ((store.filter (fun f => f.job = vid)).map (fun f => f.size)).sum

/-! ## Download task (T023 `download_video` + part_015 error handler) -/

/-- The outcome of the provider invocation (`ydl.download`): success,
a `DownloadCancelledException` raised by the progress hook when the cancel
flag is observed, or any other provider error. -/
inductive FetchOutcome where
  | success (size : Nat)
  | cancelledDuring
  | error (msg : String)
deriving DecidableEq, Repr

/-- How one run of the download task ended. -/
inductive DlOutcome where
  | cancelled
  | complete
  | failed
deriving DecidableEq, Repr

/-- Result of one `download_video` task run: outcome, whether the provider
fetch was ever invoked, the store afterwards, and the status the task
itself wrote to the record (none when it returned before touching it). -/
structure DlRun where
  result : DlOutcome
  provider_invoked : Bool
  store : Store
  written_status : Option VideoStatus
deriving DecidableEq, Repr

/-- T023 `download_video` with the part_015 error handler: if the Redis
cancel flag is already set the task returns cancelled without ever invoking
the provider; otherwise it marks the record downloading and runs the fetch.
On `DownloadCancelledException` it runs `cleanup_partial_download` and
returns cancelled; on success it marks the record complete; on any other
exception it marks the record failed (no cleanup is performed on the
failure path). -/
def download_video (db : DB) (flagSet : Bool) (fetch : FetchOutcome)
    (store : Store) (vid : String) : DlRun :=
  if flagSet then
    ⟨.cancelled, false, store, none⟩
  else
    match fetch with
    | .success _ => ⟨.complete, true, store, some .complete⟩
    | .cancelledDuring =>
      ⟨.cancelled, true, (cleanup_partial_download db store vid).store, none⟩
    | .error _ => ⟨.failed, true, store, some .failed⟩

/-! ## Binary64 float model

part_015's hook computes `percent = int((downloaded / total * 100))` in
Python, i.e. IEEE binary64 arithmetic: `downloaded / total` is the
correctly rounded (round-to-nearest, ties-to-even) double of the exact
integer quotient, `* 100` is a correctly rounded double product, and
`int()` truncates toward zero. The model below implements exactly that
pipeline over exact integers, with a 53-bit significand and an unbounded
exponent range (byte counts keep every intermediate value well inside the
normal range of binary64, where the two models coincide). -/

/-- Fuel-based floor-log2 (structural recursion). -/
def log2fuel : Nat → Nat → Nat
  | 0, _ => 0
  | fuel+1, n => if n < 2 then 0 else log2fuel fuel (n / 2) + 1

/-- floor(log2 n) for n ≥ 1. -/
def nlog2 (n : Nat) : Nat := log2fuel n n

/-- least j with c ≤ 2^j, for c ≥ 1. -/
def nclog2 (c : Nat) : Nat := if c ≤ 1 then 0 else nlog2 (c - 1) + 1

/-- floor(log2 (n/m)) for n, m ≥ 1. -/
def qlog2 (n m : Nat) : Int :=
  if m ≤ n then (nlog2 (n / m) : Int)
  else - (nclog2 ((m + n - 1) / n) : Int)

/-- Round a/b (b ≥ 1) to the nearest integer, ties to even. -/
def rne (a b : Nat) : Nat :=
  if 2 * (a % b) < b then a / b
  else if b < 2 * (a % b) then a / b + 1
  else if (a / b) % 2 = 0 then a / b else a / b + 1

/-- An exactly represented binary float value s·2^e (s the significand). -/
structure F where
  s : Nat
  e : Int
deriving DecidableEq, Repr

/-- Numerator of n/m rescaled by 2^(-e). -/
def flScaledNum (n : Nat) (e : Int) : Nat :=
  if 0 ≤ e then n else n * 2 ^ (-e).toNat

/-- Denominator of n/m rescaled by 2^(-e). -/
def flScaledDen (m : Nat) (e : Int) : Nat :=
  if 0 ≤ e then m * 2 ^ e.toNat else m

/-- Correctly rounded binary64 quotient n/m (round to nearest, ties to
even, 53-bit significand, unbounded exponent range) — the semantics of
Python's `int / int` true division. -/
def flDiv (n m : Nat) : F :=
  if n = 0 then ⟨0, 0⟩
  else
    let e := qlog2 n m - 52
    ⟨rne (flScaledNum n e) (flScaledDen m e), e⟩

/-- Correctly rounded binary64 product x · 100 (100 is exact in binary64). -/
def flMul100 (x : F) : F :=
  if 0 ≤ x.e then flDiv (100 * x.s * 2 ^ x.e.toNat) 1
  else flDiv (100 * x.s) (2 ^ (-x.e).toNat)

/-- Truncation toward zero of the (nonnegative) value of x — Python `int()`. -/
def ftrunc (x : F) : Nat :=
  if 0 ≤ x.e then x.s * 2 ^ x.e.toNat else x.s / 2 ^ (-x.e).toNat

/-- Python's `int((downloaded / total * 100))` for total ≥ 1. -/
def pyPercent (d t : Nat) : Nat := ftrunc (flMul100 (flDiv d t))

/-- The exact rational value of a binary float. -/
def Fval (x : F) : ℚ := (x.s : ℚ) * (2:ℚ) ^ x.e

/-! ## Progress hook (part_015 `progress_hook`) -/

/-- The `status` field of a yt-dlp progress callback dict. -/
inductive HookStatus where
  | downloading
  | finished
  | other
deriving DecidableEq, Repr

/-- The fields of the yt-dlp progress callback dict read by the hook;
`none` models an absent key (or a `None` value). -/
structure HookData where
  status : HookStatus
  total_bytes : Option Nat
  total_bytes_estimate : Option Nat
  downloaded_bytes : Option Nat
deriving DecidableEq, Repr

/-- `total = d.get('total_bytes') or d.get('total_bytes_estimate', 0)`:
Python `or` falls through on `None` and on `0`. -/
def hookTotal (d : HookData) : Nat :=
  match d.total_bytes with
  | some n => if n = 0 then d.total_bytes_estimate.getD 0 else n
  | none => d.total_bytes_estimate.getD 0

/-- `downloaded = d.get('downloaded_bytes', 0)`. -/
def hookDownloaded (d : HookData) : Nat :=
  d.downloaded_bytes.getD 0

/-- The JSON payload published on the `progress:{video_id}` Redis channel. -/
structure ProgressEvent where
  percent : Nat
  downloaded_bytes : Nat
  total_bytes : Nat
deriving DecidableEq, Repr

/-- part_015 `progress_hook`: on a `downloading` callback, publish an event
whose percent is `int((downloaded / total * 100))` when `total > 0` — the
binary64 float pipeline modelled by `pyPercent` — and `0` otherwise; on any
other callback publish nothing. -/
def progress_hook (d : HookData) : Option ProgressEvent :=
  match d.status with
  | .downloading =>
    let total := hookTotal d
    let downloaded := hookDownloaded d
    let percent := if 0 < total then pyPercent downloaded total else 0
    some ⟨percent, downloaded, total⟩
  | _ => none

/-! ## Content delivery (T009 streaming service and router) -/

/-- `CHUNK_SIZE = 1024 * 1024` (1MB chunks). -/
def CHUNK_SIZE : Nat := 1024 * 1024

/-- A parsed `Range: bytes=...` header value in one of the three standard
forms handled by `parse_range_header`: `-suffix_length`, `start-`, and
`start-end`. -/
inductive RangeSpec where
  | suffix (n : Int)
  | openEnded (s : Int)
  | closed (s e : Int)
deriving DecidableEq, Repr

/-- T009 `parse_range_header`: with no header, return `(0, file_size - 1)`
(early return, before any clamping); otherwise decode the three forms and
clamp `start` to `[0, file_size - 1]` and `end` to `[start, file_size - 1]`. -/
def parse_range_header (range : Option RangeSpec) (file_size : Int) : Int × Int :=
  match range with
  | none => (0, file_size - 1)
  | some spec =>
    let se : Int × Int :=
      match spec with
      | .suffix n => (max 0 (file_size - n), file_size - 1)
      | .openEnded s => (s, file_size - 1)
      | .closed s e => (s, e)
    let start := max 0 (min se.1 (file_size - 1))
    let en := max start (min se.2 (file_size - 1))
    (start, en)

/-- The `while remaining > 0` read loop of T009 `stream_file`: read at most
`min chunkSize remaining` bytes from the current position, stop on empty
read, and decrement `remaining` by the bytes actually read. The yielded
chunks are returned concatenated. -/
def read_loop (data : List Nat) (pos remaining chunkSize : Nat) : List Nat :=
  if h : remaining = 0 then []
  else
    let d := (data.drop pos).take (min chunkSize remaining)
    if hd : d = [] then []
    else d ++ read_loop data (pos + d.length) (remaining - d.length) chunkSize
termination_by remaining
decreasing_by
  exact Nat.sub_lt (Nat.pos_of_ne_zero h) (List.length_pos.mpr hd)

/-- T009 `stream_file`: `end = end or file_size - 1` (Python `or`, so a
`None` or `0` end is replaced by `file_size - 1`), seek to `start`, then run
the chunked read loop for `end - start + 1` bytes. -/
def stream_file (data : List Nat) (start : Int) (endPos : Option Int)
    (chunkSize : Nat) : List Nat :=
  let file_size : Int := data.length
  let en : Int :=
    match endPos with
    | none => file_size - 1
    | some e => if e = 0 then file_size - 1 else e
  read_loop data start.toNat (en - start + 1).toNat chunkSize

/-- The response assembled by T009 `stream_video`: status code, the headers
it sets, and the streamed body. -/
structure StreamResponse where
  status_code : Nat
  content_type : String
  accept_ranges : String
  content_length : Int
  content_range : Option (Int × Int × Int)
  body : List Nat
deriving DecidableEq, Repr

/-- T009 `stream_video`: 404 when the record is missing, 404 when its
status is not "complete", 404 when the file is missing on disk; otherwise
parse the Range header against the file size and answer 206 with a
`Content-Range: bytes start-end/size` header (when a Range header was sent)
or 200 (when none was), both with `Content-Length = end - start + 1`. -/
def stream_video (video : Option VideoRec) (fileExists : Bool)
    (data : List Nat) (range : Option RangeSpec) :
    Except HTTPError StreamResponse :=
  match video with
  | none => .error ⟨404, "Video not found"⟩
  | some v =>
    if v.status ≠ .complete then
      .error ⟨404, "Video download not complete"⟩
    else if ¬fileExists then
      .error ⟨404, "Video file not found"⟩
    else
      let file_size : Int := data.length
      let se := parse_range_header range file_size
      let content_length : Int := se.2 - se.1 + 1
      match range with
      | some _ =>
        .ok ⟨206, "video/mp4", "bytes", content_length,
          some (se.1, se.2, file_size),
          stream_file data se.1 (some se.2) CHUNK_SIZE⟩
      | none =>
        .ok ⟨200, "video/mp4", "bytes", content_length, none,
          stream_file data 0 none CHUNK_SIZE⟩

/-! ## Helper lemmas -/

/-- Updating a record keeps the number of rows in the table. -/
lemma dbUpdate_length (db : DB) (vid : String) (v : VideoRec) :
    (dbUpdate db vid v).length = db.length :=
  List.length_map db _

/-- After updating the record for a key that is present, looking the key up
returns the new record. -/
lemma dbLookup_dbUpdate (db : DB) (vid : String) (v v' : VideoRec)
    (hl : dbLookup db vid = some v) :
    dbLookup (dbUpdate db vid v') vid = some v' := by
  induction db with
  | nil => simp [dbLookup] at hl
  | cons p tl ih =>
    rcases p with ⟨k, w⟩
    by_cases hp : k = vid
    · subst hp
      unfold dbLookup dbUpdate
      rw [List.map_cons]
      simp [List.find?_cons_of_pos]
    · have hl' : dbLookup tl vid = some v := by
        unfold dbLookup at hl ⊢
        rwa [List.find?_cons_of_neg _ (by simp [hp])] at hl
      unfold dbLookup dbUpdate
      rw [List.map_cons]
      simp only [hp, if_false]
      rw [List.find?_cons_of_neg _ (by simp [hp])]
      exact ih hl'

/-- The pair returned by `parse_range_header` for a present Range header is
clamped into `[0, file_size - 1]` with `start ≤ end`. -/
lemma parse_range_bounds (spec : RangeSpec) (S : Int) (hS : 1 ≤ S) :
    0 ≤ (parse_range_header (some spec) S).1 ∧
    (parse_range_header (some spec) S).1 ≤ (parse_range_header (some spec) S).2 ∧
    (parse_range_header (some spec) S).2 ≤ S - 1 := by
  cases spec <;> simp only [parse_range_header] <;> refine ⟨?_, ?_, ?_⟩ <;> omega

/-- The chunked read loop returns exactly the `remaining`-byte window of the
file starting at `pos` (provided the chunk size is positive). -/
lemma read_loop_eq (data : List Nat) (chunkSize : Nat) (hc : 1 ≤ chunkSize) :
    ∀ remaining pos,
      read_loop data pos remaining chunkSize = (data.drop pos).take remaining := by
  intro remaining
  induction remaining using Nat.strong_induction_on with
  | _ remaining ih =>
    intro pos
    rw [read_loop]
    by_cases h0 : remaining = 0
    · simp [h0]
    · simp only [h0, dite_false]
      set l := data.drop pos with hl
      set m := min chunkSize remaining with hm
      have hm1 : 1 ≤ m := le_min hc (Nat.one_le_iff_ne_zero.mpr h0)
      by_cases hd : l.take m = []
      · have : l = [] := by
          rcases List.take_eq_nil_iff.mp hd with h | h
          · omega
          · exact h
        simp [hd, this]
      · simp only [hd, dite_false]
        set d := l.take m with hdm
        have hdlen : d.length = min m l.length := List.length_take m l
        have hdrem : d.length ≤ remaining := by
          rw [hdlen]
          exact le_trans (min_le_left _ _) (by rw [hm]; exact min_le_right _ _)
        have hstep := ih (remaining - d.length)
          (Nat.sub_lt (Nat.pos_of_ne_zero h0) (List.length_pos.mpr hd))
          (pos + d.length)
        rw [hstep]
        have hdrop : data.drop (pos + d.length) = l.drop d.length := by
          rw [hl, List.drop_drop, Nat.add_comm]
        rw [hdrop]
        have htake : l.take d.length = d := by
          rcases le_or_lt m l.length with hml | hml
          · have hh : d.length = m := by rw [hdlen]; exact min_eq_left hml
            rw [hh, hdm]
          · have h2 : d.length = l.length := by
              rw [hdlen]; exact min_eq_right (le_of_lt hml)
            rw [h2, List.take_length, hdm, List.take_of_length_le (le_of_lt hml)]
        calc d ++ (l.drop d.length).take (remaining - d.length)
            = l.take d.length ++ (l.drop d.length).take (remaining - d.length) := by
              rw [htake]
          _ = l.take (d.length + (remaining - d.length)) := (List.take_add l _ _).symm
          _ = l.take remaining := by congr 1; omega

/-- Whatever arguments it is given, `stream_file` only ever returns a
contiguous window of the file: its output is an infix of the file's bytes. -/
lemma stream_file_isInfix (data : List Nat) (start : Int) (endPos : Option Int)
    (chunkSize : Nat) (hc : 1 ≤ chunkSize) :
    List.IsInfix (stream_file data start endPos chunkSize) data := by
  unfold stream_file
  rw [read_loop_eq data chunkSize hc]
  exact ((List.take_prefix _ _).isInfix).trans ((List.drop_suffix _ _).isInfix)

/-- Closed form of `stream_file` at the production chunk size, used to
evaluate it on concrete inputs. -/
lemma stream_file_chunk (data : List Nat) (start : Int) (endPos : Option Int) :
    stream_file data start endPos CHUNK_SIZE =
      (data.drop start.toNat).take
        (((match endPos with
            | none => (data.length : Int) - 1
            | some e => if e = 0 then (data.length : Int) - 1 else e)
          - start + 1).toNat) := by
  unfold stream_file
  rw [read_loop_eq data CHUNK_SIZE (by norm_num [CHUNK_SIZE])]

lemma log2fuel_spec : ∀ fuel n : Nat, 1 ≤ n → n ≤ fuel →
    2 ^ log2fuel fuel n ≤ n ∧ n < 2 ^ (log2fuel fuel n + 1) := by
  intro fuel
  induction fuel with
  | zero => intro n h1 h2; omega
  | succ fuel ih =>
    intro n h1 h2
    rw [log2fuel]
    by_cases hn : n < 2
    · simp only [hn, if_true]
      constructor
      · simpa using h1
      · omega
    · simp only [hn, if_false]
      have hrec := ih (n / 2) (by omega) (by omega)
      have h2q : 2 ^ (log2fuel fuel (n / 2) + 1) ≤ 2 * (n / 2) := by
        have := hrec.1
        calc 2 ^ (log2fuel fuel (n / 2) + 1) = 2 * 2 ^ log2fuel fuel (n / 2) := by ring
        _ ≤ 2 * (n / 2) := by omega
      constructor
      · calc 2 ^ (log2fuel fuel (n / 2) + 1) ≤ 2 * (n / 2) := h2q
        _ ≤ n := by omega
      · have := hrec.2
        have : n / 2 + 1 ≤ 2 ^ (log2fuel fuel (n / 2) + 1) := this
        calc n < 2 * (n / 2) + 2 := by omega
        _ ≤ 2 * 2 ^ (log2fuel fuel (n / 2) + 1) := by omega
        _ = 2 ^ (log2fuel fuel (n / 2) + 1 + 1) := by ring

lemma nlog2_spec (n : Nat) (h : 1 ≤ n) :
    2 ^ nlog2 n ≤ n ∧ n < 2 ^ (nlog2 n + 1) :=
  log2fuel_spec n n h le_rfl

lemma nclog2_spec (c : Nat) (h : 2 ≤ c) :
    c ≤ 2 ^ nclog2 c ∧ 2 ^ (nclog2 c - 1) < c := by
  have h1 : ¬ c ≤ 1 := by omega
  have hs := nlog2_spec (c - 1) (by omega)
  unfold nclog2
  simp only [h1, if_false, Nat.add_sub_cancel]
  omega

lemma qlog2_spec (n m : Nat) (hn : 1 ≤ n) (hm : 1 ≤ m) :
    (2:ℚ) ^ (qlog2 n m) ≤ (n : ℚ) / m ∧ (n : ℚ) / m < (2:ℚ) ^ (qlog2 n m + 1) := by
  have hmq : (0:ℚ) < m := by exact_mod_cast hm
  unfold qlog2
  by_cases hmn : m ≤ n
  · simp only [hmn, if_true]
    obtain ⟨hl, hu⟩ := nlog2_spec (n / m) (Nat.one_le_div_iff (by omega) |>.mpr hmn)
    set k := nlog2 (n / m) with hk
    constructor
    · rw [zpow_natCast]
      rw [le_div_iff hmq]
      have : 2 ^ k * m ≤ n := (Nat.le_div_iff_mul_le (by omega)).mp hl
      exact_mod_cast this
    · rw [show (k : ℤ) + 1 = ((k + 1 : ℕ) : ℤ) by push_cast; ring, zpow_natCast]
      rw [div_lt_iff hmq]
      have : n < 2 ^ (k + 1) * m := (Nat.div_lt_iff_lt_mul (by omega)).mp hu
      exact_mod_cast this
  · simp only [hmn, if_false]
    have hnm : n < m := by omega
    set c := (m + n - 1) / n with hc
    have hc2 : 2 ≤ c := by
      rw [hc]
      rw [Nat.le_div_iff_mul_le (by omega)]
      omega
    have hd : c * n + (m + n - 1) % n = m + n - 1 := by
      rw [hc, Nat.mul_comm]
      exact Nat.div_add_mod _ _
    have hr := Nat.mod_lt (m + n - 1) (show 0 < n by omega)
    have hcl : m ≤ c * n := by omega
    have hcu : (c - 1) * n < m := by
      have h1 : c * n ≤ m + n - 1 := Nat.div_mul_le_self _ _
      have h2 : (c - 1) * n = c * n - n := by
        cases c with
        | zero => omega
        | succ c' => simp [Nat.succ_sub_one, Nat.succ_mul]
      omega
    obtain ⟨hjl, hju⟩ := nclog2_spec c hc2
    set j := nclog2 c with hj
    have hj1 : 1 ≤ j := by
      by_contra h
      have : j = 0 := by omega
      rw [this] at hjl
      simp at hjl
      omega
    constructor
    · rw [zpow_neg, zpow_natCast, inv_eq_one_div]
      rw [div_le_div_iff (by positivity) hmq]
      have hnat : 1 * m ≤ n * 2 ^ j :=
        by calc 1 * m = m := by ring
          _ ≤ c * n := hcl
          _ ≤ 2 ^ j * n := Nat.mul_le_mul_right n hjl
          _ = n * 2 ^ j := by ring
      exact_mod_cast hnat
    · rw [show -(j : ℤ) + 1 = -(((j - 1 : ℕ)) : ℤ) by
        have : ((j - 1 : ℕ) : ℤ) = (j : ℤ) - 1 := by
          push_cast [Nat.cast_sub hj1]; ring
        omega]
      rw [zpow_neg, zpow_natCast, inv_eq_one_div]
      rw [div_lt_div_iff hmq (by positivity)]
      have hnat : n * 2 ^ (j - 1) < 1 * m := by
        calc n * 2 ^ (j - 1) = 2 ^ (j - 1) * n := by ring
          _ ≤ (c - 1) * n := Nat.mul_le_mul_right n (by omega)
          _ < m := hcu
          _ = 1 * m := by ring
      exact_mod_cast hnat

lemma rne_bounds (a b : Nat) : a / b ≤ rne a b ∧ rne a b ≤ a / b + 1 := by
  unfold rne
  split_ifs <;> omega

lemma rne_mono (a1 b1 a2 b2 : Nat) (hb1 : 1 ≤ b1) (hb2 : 1 ≤ b2)
    (h : (a1 : ℚ) / b1 ≤ (a2 : ℚ) / b2) : rne a1 b1 ≤ rne a2 b2 := by
  have hb1q : (0:ℚ) < b1 := by exact_mod_cast hb1
  have hb2q : (0:ℚ) < b2 := by exact_mod_cast hb2
  -- cross-multiplied form of the hypothesis
  have hcross : a1 * b2 ≤ a2 * b1 := by
    have := (div_le_div_iff hb1q hb2q).mp h
    exact_mod_cast this
  -- floor monotonicity
  have hq : a1 / b1 ≤ a2 / b2 := by
    have h1 : ((a1 / b1 : ℕ) : ℚ) ≤ (a1 : ℚ) / b1 := Nat.cast_div_le
    have h2 : (a2 : ℚ) / b2 < ((a2 / b2 : ℕ) : ℚ) + 1 := by
      rw [div_lt_iff hb2q]
      have ha2 : a2 = b2 * (a2 / b2) + a2 % b2 := (Nat.div_add_mod a2 b2).symm
      have hr2 : a2 % b2 < b2 := Nat.mod_lt a2 (by omega)
      have : (a2 : ℚ) < ((a2 / b2 : ℕ) + 1) * b2 := by
        have hnat : a2 < (a2 / b2 + 1) * b2 := by
          have e2 : (a2 / b2 + 1) * b2 = b2 * (a2 / b2) + b2 := by ring
          omega
        exact_mod_cast hnat
      exact this
    have : ((a1 / b1 : ℕ) : ℚ) < ((a2 / b2 : ℕ) : ℚ) + 1 :=
      lt_of_le_of_lt (le_trans h1 h) h2
    have : (a1 / b1 : ℕ) < (a2 / b2 : ℕ) + 1 := by exact_mod_cast this
    omega
  rcases Nat.lt_or_ge (a1 / b1) (a2 / b2) with hlt | hge
  · have h1 := rne_bounds a1 b1
    have h2 := rne_bounds a2 b2
    omega
  · -- equal floors
    have hqeq : a1 / b1 = a2 / b2 := by omega
    set q := a1 / b1 with hqdef
    have ha1 : a1 = b1 * q + a1 % b1 := by rw [hqdef]; exact (Nat.div_add_mod a1 b1).symm
    have ha2 : a2 = b2 * q + a2 % b2 := by rw [hqeq]; exact (Nat.div_add_mod a2 b2).symm
    set r1 := a1 % b1 with hr1def
    set r2 := a2 % b2 with hr2def
    -- fractional parts compare: r1 * b2 ≤ r2 * b1
    have hfrac : r1 * b2 ≤ r2 * b1 := by
      have e1 : a1 * b2 = q * (b1 * b2) + r1 * b2 := by rw [ha1]; ring
      have e2 : a2 * b1 = q * (b1 * b2) + r2 * b1 := by rw [ha2]; ring
      omega
    have key1 : b1 < 2 * r1 → b2 < 2 * r2 := by
      intro hk
      have h1 : b2 * b1 < (2 * r2) * b1 := by
        calc b2 * b1 = b1 * b2 := by ring
          _ < (2 * r1) * b2 := (Nat.mul_lt_mul_right (show 0 < b2 by omega)).mpr hk
          _ = 2 * (r1 * b2) := by ring
          _ ≤ 2 * (r2 * b1) := by omega
          _ = 2 * r2 * b1 := by ring
      exact (Nat.mul_lt_mul_right (show 0 < b1 by omega)).mp h1
    have key2 : 2 * r1 = b1 → b2 ≤ 2 * r2 := by
      intro hk
      have h1 : b2 * b1 ≤ (2 * r2) * b1 := by
        calc b2 * b1 = (2 * r1) * b2 := by rw [hk]; ring
          _ = 2 * (r1 * b2) := by ring
          _ ≤ 2 * (r2 * b1) := by omega
          _ = 2 * r2 * b1 := by ring
      exact Nat.le_of_mul_le_mul_right h1 (by omega)
    unfold rne
    split_ifs <;> omega

lemma rne_range (a b : Nat) (hb : 1 ≤ b)
    (hl : 2 ^ 52 * b ≤ a) (hu : a < 2 ^ 53 * b) :
    2 ^ 52 ≤ rne a b ∧ rne a b ≤ 2 ^ 53 := by
  have h1 : 2 ^ 52 ≤ a / b := (Nat.le_div_iff_mul_le (by omega)).mpr (by omega)
  have h2 : a / b < 2 ^ 53 := (Nat.div_lt_iff_lt_mul (by omega)).mpr (by omega)
  have h3 := rne_bounds a b
  omega

lemma Fval_nonneg (x : F) : 0 ≤ Fval x := by
  unfold Fval
  positivity

lemma flScaledDen_pos (m : Nat) (hm : 1 ≤ m) (e : Int) : 1 ≤ flScaledDen m e := by
  unfold flScaledDen
  split_ifs
  · exact Nat.mul_pos hm (Nat.two_pow_pos _)
  · exact hm

lemma flScaled_div_eq (n m : Nat) (hm : 1 ≤ m) (e : Int) :
    (flScaledNum n e : ℚ) / (flScaledDen m e : ℚ) = (n : ℚ) / m * (2:ℚ) ^ (-e) := by
  have hmq : (0:ℚ) < m := by exact_mod_cast hm
  unfold flScaledNum flScaledDen
  by_cases he : 0 ≤ e
  · simp only [he, if_true]
    push_cast
    rw [show ((2:ℚ) ^ e.toNat) = (2:ℚ) ^ e by
      rw [← zpow_natCast, Int.toNat_of_nonneg he]]
    rw [zpow_neg]
    field_simp
  · simp only [he, if_false]
    push_cast
    rw [show ((2:ℚ) ^ (-e).toNat) = (2:ℚ) ^ (-e) by
      rw [← zpow_natCast, Int.toNat_of_nonneg (by omega)]]
    field_simp
    exact Or.inl (mul_comm _ _)

lemma flDiv_norm (n m : Nat) (hn : 1 ≤ n) (hm : 1 ≤ m) :
    2 ^ 52 * flScaledDen m (qlog2 n m - 52) ≤ flScaledNum n (qlog2 n m - 52) ∧
    flScaledNum n (qlog2 n m - 52) < 2 ^ 53 * flScaledDen m (qlog2 n m - 52) := by
  obtain ⟨hl, hu⟩ := qlog2_spec n m hn hm
  set k := qlog2 n m with hk
  set e := k - 52 with he
  have hbq : (0:ℚ) < flScaledDen m e := by
    have := flScaledDen_pos m hm e
    exact_mod_cast this
  have hquot := flScaled_div_eq n m hm e
  have hzn : (0:ℚ) ≤ (2:ℚ) ^ (-e) := zpow_nonneg (by norm_num) _
  have h52 : (2:ℚ) ^ (52:ℤ) = (2:ℚ) ^ k * (2:ℚ) ^ (-e) := by
    rw [← zpow_add₀ (by norm_num : (2:ℚ) ≠ 0)]
    congr 1
    omega
  have h53 : (2:ℚ) ^ (53:ℤ) = (2:ℚ) ^ (k + 1) * (2:ℚ) ^ (-e) := by
    rw [← zpow_add₀ (by norm_num : (2:ℚ) ≠ 0)]
    congr 1
    omega
  constructor
  · have hql : (2:ℚ) ^ (52:ℤ) ≤ (flScaledNum n e : ℚ) / flScaledDen m e := by
      rw [hquot, h52]
      exact mul_le_mul_of_nonneg_right hl hzn
    rw [le_div_iff₀ hbq] at hql
    have : ((2 ^ 52 * flScaledDen m e : ℕ) : ℚ) ≤ (flScaledNum n e : ℚ) := by
      push_cast
      calc ((2:ℚ) ^ (52:ℕ)) * flScaledDen m e = (2:ℚ) ^ (52:ℤ) * flScaledDen m e := by
            rw [← zpow_natCast]; norm_num
        _ ≤ flScaledNum n e := hql
    exact_mod_cast this
  · have hqu : (flScaledNum n e : ℚ) / flScaledDen m e < (2:ℚ) ^ (53:ℤ) := by
      rw [hquot, h53]
      have hzpos : (0:ℚ) < (2:ℚ) ^ (-e) := zpow_pos (by norm_num) _
      exact mul_lt_mul_of_pos_right hu hzpos
    rw [div_lt_iff₀ hbq] at hqu
    have : (flScaledNum n e : ℚ) < ((2 ^ 53 * flScaledDen m e : ℕ) : ℚ) := by
      push_cast
      calc (flScaledNum n e : ℚ) < (2:ℚ) ^ (53:ℤ) * flScaledDen m e := hqu
        _ = (2:ℚ) ^ (53:ℕ) * flScaledDen m e := by rw [← zpow_natCast]; norm_num
    exact_mod_cast this

lemma flDiv_val (n m : Nat) (hn : ¬ n = 0) :
    flDiv n m = ⟨rne (flScaledNum n (qlog2 n m - 52)) (flScaledDen m (qlog2 n m - 52)),
      qlog2 n m - 52⟩ := by
  unfold flDiv
  simp [hn]

lemma cast_two_pow_53 : ((2 ^ 53 : ℕ) : ℚ) = (2:ℚ) ^ (53:ℤ) := by
  rw [Nat.cast_pow, Nat.cast_ofNat, ← zpow_natCast]
  norm_num

lemma cast_two_pow_52 : ((2 ^ 52 : ℕ) : ℚ) = (2:ℚ) ^ (52:ℤ) := by
  rw [Nat.cast_pow, Nat.cast_ofNat, ← zpow_natCast]
  norm_num

lemma flDiv_mono (n1 m1 n2 m2 : Nat) (hm1 : 1 ≤ m1) (hm2 : 1 ≤ m2)
    (h : (n1:ℚ)/m1 ≤ (n2:ℚ)/m2) : Fval (flDiv n1 m1) ≤ Fval (flDiv n2 m2) := by
  by_cases hn1 : n1 = 0
  · have : flDiv n1 m1 = ⟨0, 0⟩ := by unfold flDiv; simp [hn1]
    rw [this]
    have : Fval ⟨0, 0⟩ = 0 := by unfold Fval; simp
    rw [this]
    exact Fval_nonneg _
  · by_cases hn2 : n2 = 0
    · exfalso
      have hm1q : (0:ℚ) < m1 := by exact_mod_cast hm1
      have hpos : (0:ℚ) < (n1:ℚ)/m1 := by
        apply div_pos _ hm1q
        have : 1 ≤ n1 := by omega
        exact_mod_cast this
      rw [hn2] at h
      simp at h
      have : (0:ℚ) < 0 := lt_of_lt_of_le hpos h
      exact absurd this (by norm_num)
    · have hn1' : 1 ≤ n1 := by omega
      have hn2' : 1 ≤ n2 := by omega
      obtain ⟨hq1l, hq1u⟩ := qlog2_spec n1 m1 hn1' hm1
      obtain ⟨hq2l, hq2u⟩ := qlog2_spec n2 m2 hn2' hm2
      set k1 := qlog2 n1 m1 with hk1
      set k2 := qlog2 n2 m2 with hk2
      have hk : k1 ≤ k2 := by
        have hlt : (2:ℚ) ^ k1 < (2:ℚ) ^ (k2 + 1) :=
          lt_of_le_of_lt (le_trans hq1l h) hq2u
        have := (zpow_lt_zpow_iff_right₀ (by norm_num : (1:ℚ) < 2)).mp hlt
        omega
      obtain ⟨hn1l, hn1u⟩ := flDiv_norm n1 m1 hn1' hm1
      obtain ⟨hn2l, hn2u⟩ := flDiv_norm n2 m2 hn2' hm2
      have hb1 : 1 ≤ flScaledDen m1 (k1 - 52) := flScaledDen_pos m1 hm1 _
      have hb2 : 1 ≤ flScaledDen m2 (k2 - 52) := flScaledDen_pos m2 hm2 _
      obtain ⟨hs1l, hs1u⟩ := rne_range _ _ hb1 hn1l hn1u
      obtain ⟨hs2l, hs2u⟩ := rne_range _ _ hb2 hn2l hn2u
      rw [flDiv_val n1 m1 hn1, flDiv_val n2 m2 hn2]
      unfold Fval
      simp only
      rw [← hk1, ← hk2]
      rcases eq_or_lt_of_le hk with heq | hlt
      · rw [← heq]
        apply mul_le_mul_of_nonneg_right _ (zpow_nonneg (by norm_num) _)
        have hmono : rne (flScaledNum n1 (k1 - 52)) (flScaledDen m1 (k1 - 52)) ≤
            rne (flScaledNum n2 (k1 - 52)) (flScaledDen m2 (k1 - 52)) := by
          apply rne_mono _ _ _ _ hb1 (by rw [heq]; exact hb2)
          rw [flScaled_div_eq n1 m1 hm1, flScaled_div_eq n2 m2 hm2]
          exact mul_le_mul_of_nonneg_right h (zpow_nonneg (by norm_num) _)
        have := hmono
        exact_mod_cast this
      · have he : k1 - 52 + 53 ≤ k2 - 52 + 52 := by omega
        calc ((rne (flScaledNum n1 (k1 - 52)) (flScaledDen m1 (k1 - 52)) : ℕ) : ℚ) *
              (2:ℚ) ^ (k1 - 52)
            ≤ (2:ℚ) ^ (53:ℤ) * (2:ℚ) ^ (k1 - 52) := by
              apply mul_le_mul_of_nonneg_right _ (zpow_nonneg (by norm_num) _)
              rw [← cast_two_pow_53]
              exact_mod_cast hs1u
          _ = (2:ℚ) ^ (k1 - 52 + 53) := by
              rw [← zpow_add₀ (by norm_num : (2:ℚ) ≠ 0)]
              congr 1
              omega
          _ ≤ (2:ℚ) ^ (k2 - 52 + 52) := zpow_le_zpow_right₀ (by norm_num) he
          _ = (2:ℚ) ^ (52:ℤ) * (2:ℚ) ^ (k2 - 52) := by
              rw [← zpow_add₀ (by norm_num : (2:ℚ) ≠ 0)]
              congr 1
              omega
          _ ≤ ((rne (flScaledNum n2 (k2 - 52)) (flScaledDen m2 (k2 - 52)) : ℕ) : ℚ) *
              (2:ℚ) ^ (k2 - 52) := by
              apply mul_le_mul_of_nonneg_right _ (zpow_nonneg (by norm_num) _)
              rw [← cast_two_pow_52]
              exact_mod_cast hs2l

lemma flMul100_eq (x : F) : ∃ p q : Nat, 1 ≤ q ∧ flMul100 x = flDiv p q ∧
    (p:ℚ)/q = 100 * Fval x := by
  unfold flMul100
  by_cases he : 0 ≤ x.e
  · refine ⟨100 * x.s * 2 ^ x.e.toNat, 1, le_rfl, by simp [he], ?_⟩
    unfold Fval
    push_cast
    rw [show ((2:ℚ) ^ x.e.toNat) = (2:ℚ) ^ x.e by
      rw [← zpow_natCast, Int.toNat_of_nonneg he]]
    field_simp
    ring
  · refine ⟨100 * x.s, 2 ^ (-x.e).toNat, Nat.two_pow_pos _, by simp [he], ?_⟩
    unfold Fval
    push_cast
    rw [show ((2:ℚ) ^ (-x.e).toNat) = (2:ℚ) ^ (-x.e) by
      rw [← zpow_natCast, Int.toNat_of_nonneg (by omega)]]
    rw [zpow_neg]
    have h2 : ((2:ℚ) ^ x.e) ≠ 0 := zpow_ne_zero _ (by norm_num)
    field_simp
    ring

lemma flMul100_mono (x1 x2 : F) (h : Fval x1 ≤ Fval x2) :
    Fval (flMul100 x1) ≤ Fval (flMul100 x2) := by
  obtain ⟨p1, q1, hq1, he1, hv1⟩ := flMul100_eq x1
  obtain ⟨p2, q2, hq2, he2, hv2⟩ := flMul100_eq x2
  rw [he1, he2]
  apply flDiv_mono _ _ _ _ hq1 hq2
  rw [hv1, hv2]
  exact mul_le_mul_of_nonneg_left h (by norm_num)

lemma floor_cast_div (a b : Nat) (hb : 1 ≤ b) :
    ⌊((a:ℚ) / (b:ℚ))⌋ = ((a / b : ℕ) : ℤ) := by
  have hbq : (0:ℚ) < b := by exact_mod_cast hb
  rw [Int.floor_eq_iff]
  constructor
  · push_cast
    exact Nat.cast_div_le
  · push_cast
    rw [div_lt_iff₀ hbq]
    have hnat : a < (a / b + 1) * b := by
      have hd : b * (a / b) + a % b = a := Nat.div_add_mod a b
      have hr : a % b < b := Nat.mod_lt a (by omega)
      have he : (a / b + 1) * b = b * (a / b) + b := by ring
      omega
    exact_mod_cast hnat

lemma ftrunc_eq (x : F) : ftrunc x = (⌊Fval x⌋).toNat := by
  unfold ftrunc Fval
  by_cases he : 0 ≤ x.e
  · simp only [he, if_true]
    have hv : (x.s:ℚ) * (2:ℚ) ^ x.e = ((x.s * 2 ^ x.e.toNat : ℕ) : ℚ) := by
      push_cast
      rw [show ((2:ℚ) ^ x.e.toNat) = (2:ℚ) ^ x.e by
        rw [← zpow_natCast, Int.toNat_of_nonneg he]]
    rw [hv, Int.floor_natCast, Int.toNat_natCast]
  · simp only [he, if_false]
    have hv : (x.s:ℚ) * (2:ℚ) ^ x.e = (x.s:ℚ) / ((2 ^ (-x.e).toNat : ℕ) : ℚ) := by
      push_cast
      rw [show ((2:ℚ) ^ (-x.e).toNat) = (2:ℚ) ^ (-x.e) by
        rw [← zpow_natCast, Int.toNat_of_nonneg (by omega)]]
      rw [zpow_neg, div_eq_mul_inv, inv_inv]
    rw [hv, floor_cast_div _ _ (Nat.two_pow_pos _), Int.toNat_natCast]

lemma ftrunc_mono (x1 x2 : F) (h : Fval x1 ≤ Fval x2) : ftrunc x1 ≤ ftrunc x2 := by
  rw [ftrunc_eq, ftrunc_eq]
  exact Int.toNat_le_toNat (Int.floor_le_floor h)

lemma pyPercent_mono (t : Nat) (ht : 1 ≤ t) (d1 d2 : Nat) (h : d1 ≤ d2) :
    pyPercent d1 t ≤ pyPercent d2 t := by
  unfold pyPercent
  apply ftrunc_mono
  apply flMul100_mono
  apply flDiv_mono _ _ _ _ ht ht
  gcongr

/-- The event published for a `downloading` callback. -/
def hookEvent (d : HookData) : ProgressEvent :=
  ⟨if 0 < hookTotal d then pyPercent (hookDownloaded d) (hookTotal d) else 0,
    hookDownloaded d, hookTotal d⟩

/-- When every callback of a list is in `downloading` state, every callback
publishes, so `filterMap progress_hook` is a plain `map`. -/
lemma filterMap_progress_of_all (ds : List HookData)
    (h : ∀ d ∈ ds, d.status = .downloading) :
    ds.filterMap progress_hook = ds.map hookEvent := by
  induction ds with
  | nil => rfl
  | cons a tl ih =>
    rw [List.filterMap_cons, List.map_cons]
    have ha := h a (List.mem_cons_self a tl)
    have htl := ih (fun d hd => h d (List.mem_cons_of_mem _ hd))
    simp [progress_hook, hookEvent, ha, htl]

/-- Published percents are monotone along a list of callbacks whose totals
all equal the same positive value and whose downloaded counts are
non-decreasing. -/
lemma chain'_percent_of_mono (t : Nat) (ht : 0 < t) :
    ∀ ds : List HookData, (∀ d ∈ ds, hookTotal d = t) →
      List.Chain' (fun a b => hookDownloaded a ≤ hookDownloaded b) ds →
      List.Chain' (fun a b : ProgressEvent => a.percent ≤ b.percent)
        (ds.map hookEvent) := by
  intro ds
  induction ds with
  | nil => intro _ _; simp
  | cons a tl ih =>
    intro htot hmono
    rw [List.map_cons]
    cases tl with
    | nil => simp
    | cons b tl2 =>
      rw [List.map_cons, List.chain'_cons]
      constructor
      · have hta : hookTotal a = t := htot a (by simp)
        have htb : hookTotal b = t := htot b (by simp)
        have hab : hookDownloaded a ≤ hookDownloaded b :=
          (List.chain'_cons.mp hmono).1
        simp only [hookEvent, hta, htb, if_pos ht]
        exact pyPercent_mono t ht _ _ hab
      · have := ih (fun d hd => htot d (by simp [hd]))
          (List.chain'_cons.mp hmono).2
        simpa using this

/-! ## Claim theorems -/

/-- C2: submitting a reference while an existing Job for the same reference
is in a non-terminal state (pending or downloading) returns a Conflict
error, leaves the video table unchanged (so no second Job record is
created) and enqueues nothing. -/
theorem c2_duplicate_submit_conflict (db : DB) (vid : String) (v : VideoRec)
    (hl : dbLookup db vid = some v)
    (hs : v.status = .pending ∨ v.status = .downloading) (fetchOk : Bool) :
    (ingest_video db true vid fetchOk).result =
      .error (.conflict ("Video " ++ vid ++ " is already being processed")) ∧
    (ingest_video db true vid fetchOk).db = db ∧
    (ingest_video db true vid fetchOk).enqueued = [] := by
  rcases hs with h | h <;> simp [ingest_video, hl, h]

theorem c2_duplicate_submit_conflict_witness :
    dbLookup [("dQw4w9WgXcQ", ⟨.downloading, none, none⟩)] "dQw4w9WgXcQ" =
      some ⟨.downloading, none, none⟩ ∧
    (ingest_video [("dQw4w9WgXcQ", ⟨.downloading, none, none⟩)] true "dQw4w9WgXcQ" true).result =
      .error (.conflict "Video dQw4w9WgXcQ is already being processed") ∧
    (ingest_video [("dQw4w9WgXcQ", ⟨.downloading, none, none⟩)] true "dQw4w9WgXcQ" true).db =
      [("dQw4w9WgXcQ", ⟨.downloading, none, none⟩)] ∧
    (ingest_video [("dQw4w9WgXcQ", ⟨.downloading, none, none⟩)] true "dQw4w9WgXcQ" true).enqueued = [] := by
  have h := c2_duplicate_submit_conflict
    [("dQw4w9WgXcQ", ⟨.downloading, none, none⟩)] "dQw4w9WgXcQ"
    ⟨.downloading, none, none⟩ rfl (Or.inr rfl) true
  exact ⟨rfl, h.1, h.2.1, h.2.2⟩

/-- C4: a Content Delivery request for the asset of a Job whose status is
not "complete" returns 404 Not Found, whatever the Range header and even
when a (partial) file exists on disk. -/
theorem c4_not_complete_not_found (v : VideoRec) (hv : v.status ≠ .complete)
    (fileExists : Bool) (data : List Nat) (range : Option RangeSpec) :
    stream_video (some v) fileExists data range =
      .error ⟨404, "Video download not complete"⟩ := by
  simp [stream_video, hv]

theorem c4_not_complete_not_found_witness :
    (VideoRec.mk .downloading none none).status ≠ .complete ∧
    stream_video (some ⟨.downloading, none, none⟩) true [7, 8, 9] none =
      .error ⟨404, "Video download not complete"⟩ :=
  ⟨by decide, c4_not_complete_not_found ⟨.downloading, none, none⟩ (by decide) true [7, 8, 9] none⟩

/-- C7: submitting a reference whose prior Job is failed or cancelled does
not create a duplicate record: the call succeeds as a retry, clears the
error detail, transitions the record back to pending, re-enqueues the
download, and keeps the number of records unchanged. -/
theorem c7_resubmit_is_retry (db : DB) (vid : String) (v : VideoRec)
    (hl : dbLookup db vid = some v)
    (hs : v.status = .failed ∨ v.status = .cancelled) (fetchOk : Bool) :
    (ingest_video db true vid fetchOk).result =
      .ok ⟨vid, "Retry queued for previously failed download"⟩ ∧
    dbLookup (ingest_video db true vid fetchOk).db vid =
      some { v with status := .pending, error_message := none } ∧
    (ingest_video db true vid fetchOk).db.length = db.length ∧
    (ingest_video db true vid fetchOk).enqueued = [vid] := by
  have hdb : (ingest_video db true vid fetchOk).db =
      dbUpdate db vid { v with status := .pending, error_message := none } := by
    rcases hs with h | h <;> simp [ingest_video, hl, h]
  refine ⟨?_, ?_, ?_, ?_⟩
  · rcases hs with h | h <;> simp [ingest_video, hl, h]
  · rw [hdb]
    exact dbLookup_dbUpdate db vid v _ hl
  · rw [hdb]
    exact dbUpdate_length db vid _
  · rcases hs with h | h <;> simp [ingest_video, hl, h]

theorem c7_resubmit_is_retry_witness :
    dbLookup [("abc", ⟨.cancelled, some "Download cancelled by user", none⟩)] "abc" =
      some ⟨.cancelled, some "Download cancelled by user", none⟩ ∧
    (ingest_video [("abc", ⟨.cancelled, some "Download cancelled by user", none⟩)] true "abc" true).result =
      .ok ⟨"abc", "Retry queued for previously failed download"⟩ ∧
    dbLookup (ingest_video [("abc", ⟨.cancelled, some "Download cancelled by user", none⟩)] true "abc" true).db "abc" =
      some ⟨.pending, none, none⟩ ∧
    (ingest_video [("abc", ⟨.cancelled, some "Download cancelled by user", none⟩)] true "abc" true).db.length = 1 ∧
    (ingest_video [("abc", ⟨.cancelled, some "Download cancelled by user", none⟩)] true "abc" true).enqueued = ["abc"] := by
  have h := c7_resubmit_is_retry
    [("abc", ⟨.cancelled, some "Download cancelled by user", none⟩)] "abc"
    ⟨.cancelled, some "Download cancelled by user", none⟩ rfl (Or.inr rfl) true
  exact ⟨rfl, h.1, h.2.1, h.2.2.1, h.2.2.2⟩

/-- C8: Cancel on a Job in a terminal state (complete, failed or cancelled)
returns an invalid-state error (HTTP 400) and changes nothing: the record,
the cancel flags and the cleanup queue are untouched. -/
theorem c8_cancel_terminal_invalid (db : DB) (vid : String) (v : VideoRec)
    (hl : dbLookup db vid = some v)
    (hs : v.status = .complete ∨ v.status = .failed ∨ v.status = .cancelled)
    (flags queue : List String) :
    (cancel_download db flags queue vid).result =
      .error ⟨400, "Cannot cancel video with status " ++ statusStr v.status⟩ ∧
    (cancel_download db flags queue vid).db = db ∧
    (cancel_download db flags queue vid).flags = flags ∧
    (cancel_download db flags queue vid).cleanupQueue = queue := by
  rcases hs with h | h | h <;> simp [cancel_download, hl, h, statusStr]

theorem c8_cancel_terminal_invalid_witness :
    dbLookup [("J1", ⟨.complete, none, some 9⟩)] "J1" = some ⟨.complete, none, some 9⟩ ∧
    (cancel_download [("J1", ⟨.complete, none, some 9⟩)] [] [] "J1").result =
      .error ⟨400, "Cannot cancel video with status complete"⟩ ∧
    (cancel_download [("J1", ⟨.complete, none, some 9⟩)] [] [] "J1").db =
      [("J1", ⟨.complete, none, some 9⟩)] ∧
    (cancel_download [("J1", ⟨.complete, none, some 9⟩)] [] [] "J1").flags = [] ∧
    (cancel_download [("J1", ⟨.complete, none, some 9⟩)] [] [] "J1").cleanupQueue = [] := by
  have h := c8_cancel_terminal_invalid [("J1", ⟨.complete, none, some 9⟩)] "J1"
    ⟨.complete, none, some 9⟩ rfl (Or.inl rfl) [] []
  exact ⟨rfl, h.1, h.2.1, h.2.2.1, h.2.2.2⟩

/-- C9: Cancel on a pending Job succeeds and transitions the record
directly to cancelled; and the download task, finding the cancel flag
already set when it is dequeued, returns cancelled without ever invoking
the provider fetch — no Worker ever starts fetching for it. -/
theorem c9_pending_cancel_no_dispatch (db : DB) (vid : String) (v : VideoRec)
    (hl : dbLookup db vid = some v) (hv : v.status = .pending)
    (flags queue : List String) :
    (cancel_download db flags queue vid).result = .ok ⟨"cancelled", vid⟩ ∧
    dbLookup (cancel_download db flags queue vid).db vid =
      some { v with status := .cancelled,
                    error_message := some "Download cancelled by user" } ∧
    vid ∈ (cancel_download db flags queue vid).flags ∧
    (∀ (db' : DB) (fetch : FetchOutcome) (store : Store),
      (download_video db' true fetch store vid).provider_invoked = false ∧
      (download_video db' true fetch store vid).result = .cancelled) := by
  have hdb : (cancel_download db flags queue vid).db =
      dbUpdate db vid { v with status := .cancelled,
                               error_message := some "Download cancelled by user" } := by
    simp [cancel_download, hl, hv]
  refine ⟨?_, ?_, ?_, ?_⟩
  · simp [cancel_download, hl, hv]
  · rw [hdb]
    exact dbLookup_dbUpdate db vid v _ hl
  · simp [cancel_download, hl, hv]
  · intro db' fetch store
    exact ⟨rfl, rfl⟩

theorem c9_pending_cancel_no_dispatch_witness :
    dbLookup [("J2", ⟨.pending, none, none⟩)] "J2" = some ⟨.pending, none, none⟩ ∧
    (cancel_download [("J2", ⟨.pending, none, none⟩)] [] [] "J2").result =
      .ok ⟨"cancelled", "J2"⟩ ∧
    dbLookup (cancel_download [("J2", ⟨.pending, none, none⟩)] [] [] "J2").db "J2" =
      some ⟨.cancelled, some "Download cancelled by user", none⟩ ∧
    "J2" ∈ (cancel_download [("J2", ⟨.pending, none, none⟩)] [] [] "J2").flags ∧
    (download_video [] true (.success 42) [] "J2").provider_invoked = false ∧
    (download_video [] true (.success 42) [] "J2").result = .cancelled := by
  have h := c9_pending_cancel_no_dispatch [("J2", ⟨.pending, none, none⟩)] "J2"
    ⟨.pending, none, none⟩ rfl rfl [] []
  exact ⟨rfl, h.1, h.2.1, h.2.2.1, (h.2.2.2 [] (.success 42) []).1,
    (h.2.2.2 [] (.success 42) []).2⟩

/-- C1: for a complete asset of size S, a Range request in any of the three
standard forms is answered 206 with positions clamped into [0, S-1],
`Content-Range: bytes start-end/S`, and `Content-Length = end - start + 1`;
with no Range header the answer is 200 with `Content-Length = S`. -/
theorem c1_range_response (v : VideoRec) (hv : v.status = .complete)
    (data : List Nat) (hS : 1 ≤ (data.length : Int)) (spec : RangeSpec) :
    (stream_video (some v) true data (some spec) =
      .ok ⟨206, "video/mp4", "bytes",
        (parse_range_header (some spec) (data.length : Int)).2 -
          (parse_range_header (some spec) (data.length : Int)).1 + 1,
        some ((parse_range_header (some spec) (data.length : Int)).1,
          (parse_range_header (some spec) (data.length : Int)).2,
          (data.length : Int)),
        stream_file data (parse_range_header (some spec) (data.length : Int)).1
          (some (parse_range_header (some spec) (data.length : Int)).2)
          CHUNK_SIZE⟩) ∧
    0 ≤ (parse_range_header (some spec) (data.length : Int)).1 ∧
    (parse_range_header (some spec) (data.length : Int)).1 ≤
      (parse_range_header (some spec) (data.length : Int)).2 ∧
    (parse_range_header (some spec) (data.length : Int)).2 ≤
      (data.length : Int) - 1 ∧
    (stream_video (some v) true data none =
      .ok ⟨200, "video/mp4", "bytes", (data.length : Int), none,
        stream_file data 0 none CHUNK_SIZE⟩) := by
  obtain ⟨h1, h2, h3⟩ := parse_range_bounds spec (data.length : Int) hS
  refine ⟨?_, h1, h2, h3, ?_⟩
  · simp [stream_video, hv]
  · simp [stream_video, hv, parse_range_header]

theorem c1_range_response_witness :
    (VideoRec.mk .complete none (some 5)).status = .complete ∧
    1 ≤ (([10, 11, 12, 13, 14] : List Nat).length : Int) ∧
    stream_video (some ⟨.complete, none, some 5⟩) true [10, 11, 12, 13, 14]
        (some (.closed 1 3)) =
      .ok ⟨206, "video/mp4", "bytes", 3, some (1, 3, 5), [11, 12, 13]⟩ ∧
    stream_video (some ⟨.complete, none, some 5⟩) true [10, 11, 12, 13, 14] none =
      .ok ⟨200, "video/mp4", "bytes", 5, none, [10, 11, 12, 13, 14]⟩ := by
  have h := c1_range_response ⟨.complete, none, some 5⟩ rfl
    [10, 11, 12, 13, 14] (by norm_num) (.closed 1 3)
  refine ⟨rfl, by norm_num, ?_, ?_⟩
  · rw [h.1, stream_file_chunk]
    simp only [Except.ok.injEq]
    decide
  · rw [h.2.2.2.2, stream_file_chunk]
    simp only [Except.ok.injEq]
    decide

/-- C10: for every file of size at least 1 and every Range header in one of
the three standard numeric forms — including values past the end of the
file — `parse_range_header` returns clamped positions with
0 ≤ start ≤ end ≤ size - 1, and the streaming generator run at those
positions emits only bytes of the file (its output is an infix of the
file's contents). -/
theorem c10_parse_range_safe (data : List Nat) (hS : 1 ≤ (data.length : Int))
    (spec : RangeSpec) :
    0 ≤ (parse_range_header (some spec) (data.length : Int)).1 ∧
    (parse_range_header (some spec) (data.length : Int)).1 ≤
      (parse_range_header (some spec) (data.length : Int)).2 ∧
    (parse_range_header (some spec) (data.length : Int)).2 ≤
      (data.length : Int) - 1 ∧
    List.IsInfix
      (stream_file data (parse_range_header (some spec) (data.length : Int)).1
        (some (parse_range_header (some spec) (data.length : Int)).2) CHUNK_SIZE)
      data := by
  obtain ⟨h1, h2, h3⟩ := parse_range_bounds spec (data.length : Int) hS
  exact ⟨h1, h2, h3,
    stream_file_isInfix data _ _ CHUNK_SIZE (by norm_num [CHUNK_SIZE])⟩

theorem c10_parse_range_safe_witness :
    1 ≤ (([10, 11, 12, 13, 14] : List Nat).length : Int) ∧
    parse_range_header (some (.closed 2 100)) (([10, 11, 12, 13, 14] : List Nat).length : Int) = (2, 4) ∧
    List.IsInfix
      (stream_file [10, 11, 12, 13, 14]
        (parse_range_header (some (.closed 2 100)) (([10, 11, 12, 13, 14] : List Nat).length : Int)).1
        (some (parse_range_header (some (.closed 2 100)) (([10, 11, 12, 13, 14] : List Nat).length : Int)).2)
        CHUNK_SIZE)
      [10, 11, 12, 13, 14] := by
  have h := c10_parse_range_safe [10, 11, 12, 13, 14] (by norm_num) (.closed 2 100)
  exact ⟨by norm_num, by decide, h.2.2.2⟩

/-- C3 counterexample: a Job whose provider fetch fails reaches the
terminal failed state with its partial artifact still in the Asset Store —
the failure path performs no cleanup, so the store holds 100 bytes for the
Job afterwards, refuting the claim for Failed jobs. -/
theorem c3_failed_leaves_partial_counterexample :
    (download_video [("J1", ⟨.downloading, none, none⟩)] false
        (.error "Network timeout") [⟨"J1", "video.part", "part", 100⟩] "J1").result =
      .failed ∧
    (download_video [("J1", ⟨.downloading, none, none⟩)] false
        (.error "Network timeout") [⟨"J1", "video.part", "part", 100⟩] "J1").written_status =
      some .failed ∧
    bytesFor (download_video [("J1", ⟨.downloading, none, none⟩)] false
        (.error "Network timeout") [⟨"J1", "video.part", "part", 100⟩] "J1").store "J1" =
      100 := by
  decide

/-- C3 amended: when a running download is cancelled, the worker invokes
cleanup, which removes every artifact of the Job matching the partial-file
patterns (leaving zero bytes when all of the Job's files match them);
cleanup is idempotent and does not fail when the artifacts are already
absent. Failed jobs, by contrast, do not trigger cleanup. -/
theorem c3_cancel_cleanup_amended (db : DB) (vid : String) (v : VideoRec)
    (hdb : dbLookup db vid = some v) (store : Store)
    (hall : ∀ f ∈ store, f.job = vid → patterns.contains f.ext = true) :
    bytesFor (download_video db false .cancelledDuring store vid).store vid = 0 ∧
    (cleanup_partial_download db (cleanup_partial_download db store vid).store vid).store =
      (cleanup_partial_download db store vid).store ∧
    (cleanup_partial_download db (cleanup_partial_download db store vid).store vid).status =
      "cleaned" ∧
    ((∀ f ∈ store, ¬ f.job = vid) →
      (cleanup_partial_download db store vid).store = store ∧
      (cleanup_partial_download db store vid).files_removed = []) := by
  refine ⟨?_, ?_, ?_, ?_⟩
  · have hstep : (download_video db false .cancelledDuring store vid).store =
        store.filter (fun f => ¬ matchesCleanup vid f) := by
      simp [download_video, cleanup_partial_download, hdb]
    have hnil : (store.filter (fun f => ¬ matchesCleanup vid f)).filter
        (fun f => f.job = vid) = [] := by
      rw [List.filter_eq_nil_iff]
      intro f hf
      obtain ⟨hfs, hnm⟩ := List.mem_filter.mp hf
      simp only [decide_eq_true_eq] at hnm ⊢
      intro hjob
      refine hnm ?_
      have hc := hall f hfs hjob
      simp only [matchesCleanup, hjob]
      simpa using hc
    rw [hstep]
    unfold bytesFor
    rw [hnil]
    rfl
  · simp only [cleanup_partial_download, hdb]
    apply List.filter_eq_self.mpr
    intro f hf
    exact (List.mem_filter.mp hf).2
  · simp [cleanup_partial_download, hdb]
  · intro hnone
    constructor
    · simp only [cleanup_partial_download, hdb]
      apply List.filter_eq_self.mpr
      intro f hf
      simp [matchesCleanup, hnone f hf]
    · simp only [cleanup_partial_download, hdb]
      have : store.filter (fun f => matchesCleanup vid f) = [] := by
        rw [List.filter_eq_nil_iff]
        intro f hf
        simp [matchesCleanup, hnone f hf]
      simp [this]

theorem c3_cancel_cleanup_amended_witness :
    dbLookup [("J1", ⟨.downloading, none, none⟩)] "J1" = some ⟨.downloading, none, none⟩ ∧
    (∀ f ∈ ([⟨"J1", "a.part", "part", 70⟩, ⟨"J1", "a.mp4", "mp4", 30⟩] : Store),
      f.job = "J1" → patterns.contains f.ext = true) ∧
    bytesFor (download_video [("J1", ⟨.downloading, none, none⟩)] false .cancelledDuring
        [⟨"J1", "a.part", "part", 70⟩, ⟨"J1", "a.mp4", "mp4", 30⟩] "J1").store "J1" = 0 ∧
    (cleanup_partial_download [("J1", ⟨.downloading, none, none⟩)]
        (cleanup_partial_download [("J1", ⟨.downloading, none, none⟩)]
          [⟨"J1", "a.part", "part", 70⟩, ⟨"J1", "a.mp4", "mp4", 30⟩] "J1").store "J1").store =
      (cleanup_partial_download [("J1", ⟨.downloading, none, none⟩)]
        [⟨"J1", "a.part", "part", 70⟩, ⟨"J1", "a.mp4", "mp4", 30⟩] "J1").store := by
  have h := c3_cancel_cleanup_amended [("J1", ⟨.downloading, none, none⟩)] "J1"
    ⟨.downloading, none, none⟩ rfl
    [⟨"J1", "a.part", "part", 70⟩, ⟨"J1", "a.mp4", "mp4", 30⟩] (by decide)
  exact ⟨rfl, by decide, h.1, h.2.1⟩

/-- C5 counterexample: (i) a downloading callback with no total byte count
(total unknown) still publishes an event, with percent 0 — so "no percent
is published while the total is unknown" is false; (ii) at downloaded = 29,
total = 100 the hook publishes percent 28 (the binary64 value of
`int(29 / 100 * 100)`) while floor(29 × 100 / 100) = 29 — so the claimed
floor formula is false as well. -/
theorem c5_unknown_total_published_counterexample :
    progress_hook ⟨.downloading, none, none, some 5⟩ = some ⟨0, 5, 0⟩ ∧
    progress_hook ⟨.downloading, none, none, some 5⟩ ≠ none ∧
    progress_hook ⟨.downloading, some 100, none, some 29⟩ = some ⟨28, 29, 100⟩ ∧
    (28 : Nat) ≠ 29 * 100 / 100 := by
  refine ⟨by decide, by decide, by decide, by decide⟩

/-- C5 amended: every downloading callback publishes an event carrying the
raw downloaded and total byte counts; with total known and positive its
percent is `int((downloaded / total * 100))` evaluated in binary64 float
arithmetic (`pyPercent`), which can fall below floor(downloaded × 100 /
total); while the total is unknown (0) the event is still published, with
percent 0. -/
theorem c5_percent_formula_amended (d : HookData) (hd : d.status = .downloading) :
    ∃ ev, progress_hook d = some ev ∧
      ev.downloaded_bytes = hookDownloaded d ∧
      ev.total_bytes = hookTotal d ∧
      (0 < hookTotal d → ev.percent = pyPercent (hookDownloaded d) (hookTotal d)) ∧
      (hookTotal d = 0 → ev.percent = 0) := by
  refine ⟨hookEvent d, ?_, rfl, rfl, ?_, ?_⟩
  · simp [progress_hook, hookEvent, hd]
  · intro h
    simp [hookEvent, h]
  · intro h
    simp [hookEvent, h]

theorem c5_percent_formula_amended_witness :
    (HookData.mk .downloading (some 200) none (some 50)).status = .downloading ∧
    (∃ ev, progress_hook ⟨.downloading, some 200, none, some 50⟩ = some ev ∧
      ev.downloaded_bytes = hookDownloaded ⟨.downloading, some 200, none, some 50⟩ ∧
      ev.total_bytes = hookTotal ⟨.downloading, some 200, none, some 50⟩ ∧
      (0 < hookTotal ⟨.downloading, some 200, none, some 50⟩ →
        ev.percent = pyPercent (hookDownloaded ⟨.downloading, some 200, none, some 50⟩)
          (hookTotal ⟨.downloading, some 200, none, some 50⟩)) ∧
      (hookTotal ⟨.downloading, some 200, none, some 50⟩ = 0 → ev.percent = 0)) :=
  ⟨rfl, c5_percent_formula_amended ⟨.downloading, some 200, none, some 50⟩ rfl⟩

/-- C6 counterexample: within one Running episode, two consecutive
downloading callbacks whose downloaded byte counts decrease (as happens
when the provider starts a second stream) publish percents 50 then 10 —
the published sequence is not monotonically non-decreasing. -/
theorem c6_decreasing_percent_counterexample :
    ([⟨.downloading, some 100, none, some 50⟩,
      ⟨.downloading, some 100, none, some 10⟩] : List HookData).filterMap progress_hook =
      [⟨50, 50, 100⟩, ⟨10, 10, 100⟩] ∧
    ¬ List.Chain' (fun a b : ProgressEvent => a.percent ≤ b.percent)
      (([⟨.downloading, some 100, none, some 50⟩,
        ⟨.downloading, some 100, none, some 10⟩] : List HookData).filterMap progress_hook) := by
  have heq : ([⟨.downloading, some 100, none, some 50⟩,
      ⟨.downloading, some 100, none, some 10⟩] : List HookData).filterMap progress_hook =
      [⟨50, 50, 100⟩, ⟨10, 10, 100⟩] := rfl
  refine ⟨heq, ?_⟩
  rw [heq]
  intro hch
  have h1 := (List.chain'_cons.mp hch).1
  exact absurd h1 (by decide)

/-- C6 amended: within a single Running episode the published percents are
monotonically non-decreasing provided the provider's callbacks all carry
the same positive total and non-decreasing downloaded byte counts; the hook
itself enforces no monotonicity, so decreasing provider reports publish
decreasing percents. -/
theorem c6_monotone_percent_amended (ds : List HookData) (t : Nat) (ht : 0 < t)
    (hstat : ∀ d ∈ ds, d.status = .downloading)
    (htot : ∀ d ∈ ds, hookTotal d = t)
    (hmono : List.Chain' (fun a b => hookDownloaded a ≤ hookDownloaded b) ds) :
    List.Chain' (fun a b : ProgressEvent => a.percent ≤ b.percent)
      (ds.filterMap progress_hook) := by
  rw [filterMap_progress_of_all ds hstat]
  exact chain'_percent_of_mono t ht ds htot hmono

theorem c6_monotone_percent_amended_witness :
    (0 : Nat) < 100 ∧
    (∀ d ∈ ([⟨.downloading, some 100, none, some 10⟩,
      ⟨.downloading, some 100, none, some 50⟩] : List HookData), d.status = .downloading) ∧
    (∀ d ∈ ([⟨.downloading, some 100, none, some 10⟩,
      ⟨.downloading, some 100, none, some 50⟩] : List HookData), hookTotal d = 100) ∧
    List.Chain' (fun a b => hookDownloaded a ≤ hookDownloaded b)
      ([⟨.downloading, some 100, none, some 10⟩,
        ⟨.downloading, some 100, none, some 50⟩] : List HookData) ∧
    List.Chain' (fun a b : ProgressEvent => a.percent ≤ b.percent)
      (([⟨.downloading, some 100, none, some 10⟩,
        ⟨.downloading, some 100, none, some 50⟩] : List HookData).filterMap progress_hook) := by
  have hch : List.Chain' (fun a b => hookDownloaded a ≤ hookDownloaded b)
      ([⟨.downloading, some 100, none, some 10⟩,
        ⟨.downloading, some 100, none, some 50⟩] : List HookData) :=
    List.chain'_cons.mpr ⟨by decide, List.chain'_singleton _⟩
  exact ⟨by decide, by decide, by decide, hch,
    c6_monotone_percent_amended
      [⟨.downloading, some 100, none, some 10⟩, ⟨.downloading, some 100, none, some 50⟩]
      100 (by decide) (by decide) (by decide) hch⟩

end VidKeep
